import Mathlib

/-!
NovelRT `Ecs::SystemScheduler`: registration, distribution and start-up

A shallow embedding of `include/NovelRT/Ecs/SystemScheduler.h`.

* The registration path (`GetSystemIdForComponent`, `RegisterSystemForComponent`) is defined
  inline in the header and is transcribed statement by statement.
* `Atom::getNextComponentTypeId`, the constructor, `SpinThreads`, `JobAvailable`, `CycleForJob`
  and `ExecuteIteration` are only declared in the header; their bodies are modelled from the
  specification and marked as such.

Callbacks (`std::function<void(Timing::Timestamp)>`) are opaque. Whether a call raises is
given by a `CallOutcome`; a call that returns is recorded as an `Invocation` in the log of
the worker that made it, and a call that raises ends the iteration with
`SystemCallbackFailure`.
-/

namespace NovelRT.Ecs

/-! ## Data model -/

/-- An `Atom` is an opaque identifier wrapping an unsigned integer. -/
abbrev Atom := Nat

/-- A `Timing::Timestamp` wraps an unsigned tick count. -/
abbrev Timestamp := Nat

/-- Identity of a `std::function<void(Timing::Timestamp)>` value. -/
abbrev Callback := Nat

/-- Identity of a component type, the template argument `TComponent`. -/
abbrev ComponentType := Nat

/-- The record `struct SystemRecord { std::function<void(Timing::Timestamp)> systemPtr; }`. -/
structure SystemRecord where
  systemPtr : Callback
  deriving DecidableEq, Repr

/-- The record `struct QueueLockPair`: the queued identifiers of one worker. The mutex
`threadLock` carries no data. -/
structure QueueLockPair where
  systemIds : List Atom
  deriving DecidableEq, Repr

/-- The fields of `class SystemScheduler`. `_systems` is the `std::unordered_map`, kept as an
association list; `_threadCache` holds the pool index of every started worker thread. -/
structure SystemScheduler where
  _systemIds : List Atom
  _systems : List (Atom × SystemRecord)
  _maximumThreadCount : Nat
  _threadWorkQueues : List QueueLockPair
  _threadCache : List Nat
  _currentDelta : Timestamp
  _threadAvailabilityMap : Nat
  _threadShutDownStatus : Nat
  _shouldShutDown : Bool
  deriving DecidableEq, Repr

/-- The constant `static inline const uint32_t DEFAULT_BLIND_THREAD_LIMIT = 8`. -/
def DEFAULT_BLIND_THREAD_LIMIT : Nat := 8

/-- Process-wide state outside any scheduler object: the counter behind
`Atom::getNextComponentTypeId` and the initialised function-local statics
`static const Atom id` of the instantiations of `GetSystemIdForComponent<TComponent>`. -/
structure Statics where
  nextComponentTypeId : Nat
  componentIds : List (ComponentType × Atom)
  deriving DecidableEq, Repr

/-- Process start: no identifier issued, no function-local static initialised. -/
def Statics.initial : Statics := ⟨0, []⟩

/-! ## The `std::unordered_map` operations used by the header -/

/-- The record stored under `id`, if any (`find`). -/
def mapFind (m : List (Atom × SystemRecord)) (id : Atom) : Option SystemRecord :=
  match m with
  | [] => none
  | (k, v) :: rest => if k = id then some v else mapFind rest id

/-- The insertion `std::unordered_map::emplace`: inserts only if no element with the key
exists; an existing element is left untouched. -/
def mapEmplace (m : List (Atom × SystemRecord)) (id : Atom) (v : SystemRecord) :
    List (Atom × SystemRecord) :=
  match mapFind m id with
  | some _ => m
  | none => m ++ [(id, v)]

/-- The keys of the map. -/
def mapKeys (m : List (Atom × SystemRecord)) : List Atom := m.map Prod.fst

/-! ## Registration (defined in the header) -/

/-- Modelled from the spec: `Atom::getNextComponentTypeId`, declared in `Atom.h`, of which
only the include is known. The identifier source "issues process-unique, strictly-increasing
opaque identifiers"; it returns the incremented counter. -/
def getNextComponentTypeId (counter : Nat) : Atom × Nat := (counter + 1, counter + 1)

/-- The value of the function-local static of `GetSystemIdForComponent<T>`, once initialised. -/
def staticIdOf (st : Statics) (T : ComponentType) : Option Atom :=
  (st.componentIds.find? (fun p => p.1 = T)).map Prod.snd

/-- The member `GetSystemIdForComponent<TComponent>()`:
`static const Atom id = Atom::getNextComponentTypeId(); return id;`.
The initialiser runs on the first call for `T` only. -/
def GetSystemIdForComponent (T : ComponentType) (st : Statics) : Atom × Statics :=
  match staticIdOf st T with
  | some id => (id, st)
  | none =>
    let r := getNextComponentTypeId st.nextComponentTypeId
    (r.1, { nextComponentTypeId := r.2, componentIds := st.componentIds ++ [(T, r.1)] })

/-- The member `RegisterSystemForComponent<TComponent>(systemPtr)`:
```
Atom returnId = GetSystemIdForComponent<TComponent>();
_systems.emplace(returnId, SystemRecord{systemPtr});
_systemIds.emplace_back(returnId);
return returnId;
```
-/
def RegisterSystemForComponent (T : ComponentType) (systemPtr : Callback)
    (w : Statics × SystemScheduler) : Atom × (Statics × SystemScheduler) :=
  let r := GetSystemIdForComponent T w.1
  let returnId := r.1
  let s := w.2
  (returnId, (r.2, { s with
    _systems := mapEmplace s._systems returnId ⟨systemPtr⟩
    _systemIds := s._systemIds ++ [returnId] }))

/-- A sequence of `RegisterSystemForComponent` calls, in order; returns the identifiers
returned by the calls and the final state. -/
def registerAll (calls : List (ComponentType × Callback)) (w : Statics × SystemScheduler) :
    List Atom × (Statics × SystemScheduler) :=
  match calls with
  | [] => ([], w)
  | (T, f) :: rest =>
    let r := RegisterSystemForComponent T f w
    let rs := registerAll rest r.2
    (r.1 :: rs.1, rs.2)

/-- Two calls of `RegisterSystemForComponent` for the same component type, first with
callback `f`, then with `g`; returns both returned identifiers and the final state. -/
def registerTwice (T : ComponentType) (f g : Callback) (w : Statics × SystemScheduler) :
    (Atom × Atom) × (Statics × SystemScheduler) :=
  let r1 := RegisterSystemForComponent T f w
  let r2 := RegisterSystemForComponent T g r1.2
  ((r1.1, r2.1), r2.2)

/-- A later registration for component type `T` with callback `g`, made after the
registrations `later` have been made. -/
def registerAgainLater (T : ComponentType) (g : Callback)
    (later : List (ComponentType × Callback)) (w : Statics × SystemScheduler) :
    Atom × (Statics × SystemScheduler) :=
  RegisterSystemForComponent T g (registerAll later w).2

/-! ## Invariants -/

/-- The statics are well formed: no identifier is cached for two component types, and every
cached identifier has already been issued by the counter. -/
def Statics.WF (st : Statics) : Prop :=
  (st.componentIds.map Prod.snd).Nodup ∧
    ∀ p ∈ st.componentIds, p.2 ≤ st.nextComponentTypeId

/-- The registry is consistent: the enumerated identifiers are exactly the keys of the map. -/
def RegistryConsistent (s : SystemScheduler) : Prop :=
  ∀ id, id ∈ s._systemIds ↔ id ∈ mapKeys s._systems

instance (st : Statics) : Decidable st.WF := by
  unfold Statics.WF
  infer_instance

/-! ## Construction and start-up (declared in the header, bodies modelled) -/

/-- Modelled from the spec: the error classes of the scheduler (no error type is declared
in the header) that the model can raise. -/
inductive SchedulerError where
  | ConfigurationError
  | LifecycleMisuseError
  | SystemCallbackFailure
  deriving DecidableEq, Repr

/-- Bit width of `std::atomic_uint64_t _threadAvailabilityMap`. -/
def BITMAP_WIDTH : Nat := 64

/-- Modelled from the spec: the state of a scheduler object right after construction with
the given thread count (the constructor body is not in the header). The member containers
are default-constructed, hence empty; in state `Created` "no threads exist" and nothing has
been signalled. -/
def SystemScheduler.created (maximumThreadCount : Nat) : SystemScheduler :=
  { _systemIds := []
    _systems := []
    _maximumThreadCount := maximumThreadCount
    _threadWorkQueues := []
    _threadCache := []
    _currentDelta := 0
    _threadAvailabilityMap := 0
    _threadShutDownStatus := 0
    _shouldShutDown := false }

/-- Modelled from the spec: the constructor `SystemScheduler(uint32_t maximumThreadCount = 0)`,
whose body is not in the header. The bitmap width is "a hard ceiling the implementation must
enforce at construction": "constructing with a requested thread count above the bitmap width
fails with ConfigurationError". The header declares `SpinThreads` as `noexcept`, so the error
is raised here and not by `SpinThreads`. No arithmetic is done on the `uint32_t` argument. -/
def SystemScheduler.construct (maximumThreadCount : Nat) :
    Except SchedulerError SystemScheduler :=
  if maximumThreadCount > BITMAP_WIDTH then .error .ConfigurationError
  else .ok (SystemScheduler.created maximumThreadCount)

/-- Modelled from the spec: the thread count `SpinThreads` works with, "requested if > 0 else a
default (8), clamped to the bitmap's bit width". -/
def effectiveThreadCount (requested : Nat) : Nat :=
  min (if requested > 0 then requested else DEFAULT_BLIND_THREAD_LIMIT) BITMAP_WIDTH

/-- Modelled from the spec: worker `poolId` reports idle (`mark_idle(i)`), "bit i = 1 means
worker i is idle": sets its bit of the availability bitmap. -/
def markIdle (availability : Nat) (poolId : Nat) : Nat :=
  availability ||| (1 <<< poolId)

/-- Modelled from the spec: worker `poolId` reports busy (`mark_busy(i)`): clears its bit of
the 64-bit availability bitmap. -/
def markBusy (availability : Nat) (poolId : Nat) : Nat :=
  availability &&& ((2 ^ BITMAP_WIDTH - 1) ^^^ (1 <<< poolId))

/-- Modelled from the spec: the bitmap "reads all-idle across the active thread count"
(`all_idle(active_count)`). -/
def allIdle (availability : Nat) (threadCount : Nat) : Bool :=
  (List.range threadCount).all (fun i => availability.testBit i)

/-- Modelled from the spec: `SpinThreads() noexcept`, whose body is not in the header.
It "allocates that many work queues; starts that many worker loops; each worker sets its own
availability bit to idle immediately after starting". A second call is a no-op. -/
def SpinThreads (s : SystemScheduler) : SystemScheduler :=
  match s._threadCache with
  | _ :: _ => s
  | [] =>
    let n := effectiveThreadCount s._maximumThreadCount
    { s with
      _threadWorkQueues := List.replicate n ⟨[]⟩
      _threadCache := List.range n
      _threadAvailabilityMap := (List.range n).foldl markIdle s._threadAvailabilityMap }

/-- Modelled from the spec: starting a scheduler, `Created → (spin) Running`: construction
with the requested thread count, then `SpinThreads`. -/
def startScheduler (maximumThreadCount : Nat) : Except SchedulerError SystemScheduler :=
  match SystemScheduler.construct maximumThreadCount with
  | .error e => .error e
  | .ok s => .ok (SpinThreads s)

/-- Modelled from the spec: the number of worker threads an attempt to start a scheduler has
left running; a failed construction leaves no scheduler and no thread. -/
def workerThreadsStarted (r : Except SchedulerError SystemScheduler) : Nat :=
  match r with
  | .error _ => 0
  | .ok s => s._threadCache.length

/-! ## One iteration (declared in the header, body modelled) -/

/-- Modelled from the spec: one call of a registered callback "with the iteration's
elapsed-time value", as seen in the log of the worker that made it. -/
structure Invocation where
  systemId : Atom
  systemPtr : Callback
  delta : Timestamp
  deriving DecidableEq, Repr

/-- Modelled from the spec: the distribution step of `ExecuteIteration` (body not in the
header), from identifier index `k` on: "a fixed round-robin assignment (identifier index mod
N), under each queue's lock, appending into that queue". -/
def distributeFrom (N : Nat) (k : Nat) (ids : List Atom) (queues : List QueueLockPair) :
    List QueueLockPair :=
  match ids with
  | [] => queues
  | id :: rest =>
    distributeFrom N (k + 1) rest
      (List.modify (fun q => { q with systemIds := q.systemIds ++ [id] }) (k % N) queues)

/-- Modelled from the spec: the whole distribution step over the `N` work queues. -/
def distribute (ids : List Atom) (queues : List QueueLockPair) : List QueueLockPair :=
  distributeFrom queues.length 0 ids queues

/-- Modelled from the spec: `JobAvailable(poolId)` (declared only): the worker's queue
"becomes non-empty". -/
def JobAvailable (s : SystemScheduler) (poolId : Nat) : Bool :=
  match s._threadWorkQueues[poolId]? with
  | some q => !q.systemIds.isEmpty
  | none => false

/-- Modelled from the spec: what a call of a callback does as far as the scheduler can tell,
namely whether the call with the given elapsed time raises (`true`) or returns (`false`).
"A system callback that raises/throws is not caught by the worker loop." A `std::function`
without a target raises `std::bad_function_call` on every call, so it is a callback whose
outcome is `true` at every elapsed time. -/
abbrev CallOutcome := Callback → Timestamp → Bool

/-- The outcome in which every call of every callback returns. -/
def neverRaises : CallOutcome := fun _ _ => false

/-- Modelled from the spec: calling, "in queue order", the callback stored for every
identifier of a drained queue "with the iteration's elapsed-time value". A call that raises is
"not caught or retried by the scheduler": the calls stop there with `SystemCallbackFailure`
and the rest of the queue is not called. An identifier without a record has no target to
call and fails in the same way. -/
def invokeAll (raises : CallOutcome) (systems : List (Atom × SystemRecord))
    (delta : Timestamp) : List Atom → Except SchedulerError (List Invocation)
  | [] => .ok []
  | id :: rest =>
    match mapFind systems id with
    | none => .error .SystemCallbackFailure
    | some r =>
      if raises r.systemPtr delta then .error .SystemCallbackFailure
      else
        match invokeAll raises systems delta rest with
        | .error e => .error e
        | .ok log => .ok (⟨id, r.systemPtr, delta⟩ :: log)

/-- Modelled from the spec: one round of the worker loop `CycleForJob(poolId)` (declared
only) "on work available: acquire the queue's lock, drain the full queue for this iteration
into a local list, release the lock, clear its own availability bit (mark busy) before
execution begins, invoke every queued system's callback in queue order with the iteration's
elapsed-time value, then set its availability bit back to idle". A raising callback ends the
round with `SystemCallbackFailure`. Returns the worker's log. -/
def CycleForJob (raises : CallOutcome) (s : SystemScheduler) (poolId : Nat) :
    Except SchedulerError (SystemScheduler × List Invocation) :=
  if JobAvailable s poolId then
    let drained := (s._threadWorkQueues.getD poolId ⟨[]⟩).systemIds
    let s1 := { s with
      _threadWorkQueues := s._threadWorkQueues.set poolId ⟨[]⟩
      _threadAvailabilityMap := markBusy s._threadAvailabilityMap poolId }
    match invokeAll raises s1._systems s1._currentDelta drained with
    | .error e => .error e
    | .ok log =>
      .ok ({ s1 with _threadAvailabilityMap := markIdle s1._threadAvailabilityMap poolId }, log)
  else .ok (s, [])

/-- Modelled from the spec: the rounds of the given workers. The workers touch disjoint
queues and bits and only read the registry, so their logs do not depend on the order in which
the rounds are taken. A callback failure in any round is "a fatal condition for that frame". -/
def runWorkers (raises : CallOutcome) (s : SystemScheduler) :
    List Nat → Except SchedulerError (SystemScheduler × List (List Invocation))
  | [] => .ok (s, [])
  | poolId :: rest =>
    match CycleForJob raises s poolId with
    | .error e => .error e
    | .ok (s1, log) =>
      match runWorkers raises s1 rest with
      | .error e => .error e
      | .ok (s2, logs) => .ok (s2, log :: logs)

/-- Modelled from the spec: `ExecuteIteration(delta)` (declared only). Calling it before
`SpinThreads`, after shutdown began, or with an iteration in flight is a lifecycle misuse.
Otherwise it stores the elapsed time, distributes the registry's ordered identifiers over the
work queues, lets every worker run its round, and returns at the frame barrier, when the
bitmap reads all-idle again. A callback that raises is not caught: the iteration then ends
with `SystemCallbackFailure` instead of returning. Returns the scheduler state and one log
per worker. -/
def ExecuteIteration (raises : CallOutcome) (s : SystemScheduler) (delta : Timestamp) :
    Except SchedulerError (SystemScheduler × List (List Invocation)) :=
  let N := s._threadWorkQueues.length
  if N = 0 ∨ s._shouldShutDown = true ∨ allIdle s._threadAvailabilityMap N = false then
    .error .LifecycleMisuseError
  else
    let s1 := { s with
      _currentDelta := delta
      _threadWorkQueues := distribute s._systemIds s._threadWorkQueues }
    runWorkers raises s1 (List.range N)

/-- The identifiers of a list whose index `p` satisfies `(k + p) % N = i`, in list order:
what a round-robin pass that starts counting at `k` hands to queue `i`. -/
def picks (N k i : Nat) : List Atom → List Atom
  | [] => []
  | id :: rest =>
    if k % N = i then id :: picks N (k + 1) i rest else picks N (k + 1) i rest

/-- The log entry of a worker calling the callback stored for `id` with elapsed time
`delta`. -/
def invocationOf (systems : List (Atom × SystemRecord)) (delta : Timestamp) (id : Atom) :
    Invocation :=
  ⟨id, ((mapFind systems id).getD ⟨0⟩).systemPtr, delta⟩

/-- The scheduler state after worker `poolId` has finished one round. -/
def workerDone (s : SystemScheduler) (poolId : Nat) : SystemScheduler :=
  { s with
    _threadWorkQueues := s._threadWorkQueues.set poolId ⟨[]⟩
    _threadAvailabilityMap :=
      if JobAvailable s poolId then
        markIdle (markBusy s._threadAvailabilityMap poolId) poolId
      else s._threadAvailabilityMap }

/-- A scheduler between iterations: spun with 1 to 64 workers, all queues drained, every
worker idle, no shutdown requested, registry consistent. -/
def Ready (s : SystemScheduler) : Prop :=
  0 < s._threadWorkQueues.length ∧
  s._threadWorkQueues.length ≤ BITMAP_WIDTH ∧
  s._threadWorkQueues = List.replicate s._threadWorkQueues.length ⟨[]⟩ ∧
  allIdle s._threadAvailabilityMap s._threadWorkQueues.length = true ∧
  s._shouldShutDown = false ∧
  RegistryConsistent s

theorem mapFind_eq_none_iff (m : List (Atom × SystemRecord)) (id : Atom) :
    mapFind m id = none ↔ id ∉ mapKeys m := by
  induction m with
  | nil => simp [mapFind, mapKeys]
  | cons p rest ih =>
    obtain ⟨k, v⟩ := p
    by_cases h : k = id
    · simp [mapFind, mapKeys, h]
    · have h2 : ¬ id = k := fun e => h e.symm
      simpa [mapFind, mapKeys, h, h2] using ih

theorem mapFind_isSome_iff (m : List (Atom × SystemRecord)) (id : Atom) :
    (mapFind m id).isSome = true ↔ id ∈ mapKeys m := by
  have h := mapFind_eq_none_iff m id
  cases hf : mapFind m id with
  | none => simpa [hf] using h
  | some r =>
    rw [hf] at h
    simp only [Option.isSome_some, true_iff]
    by_contra hc
    exact absurd (h.mpr hc) (by simp)

theorem mapFind_append_of_some (m m2 : List (Atom × SystemRecord)) (id : Atom)
    (r : SystemRecord) (h : mapFind m id = some r) : mapFind (m ++ m2) id = some r := by
  induction m with
  | nil => simp [mapFind] at h
  | cons p rest ih =>
    obtain ⟨k, v⟩ := p
    by_cases hk : k = id
    · simpa [mapFind, hk] using h
    · simp only [mapFind, hk, if_false, List.cons_append] at h ⊢
      exact ih h

theorem mapFind_append_of_none (m m2 : List (Atom × SystemRecord)) (id : Atom)
    (h : mapFind m id = none) : mapFind (m ++ m2) id = mapFind m2 id := by
  induction m with
  | nil => rfl
  | cons p rest ih =>
    obtain ⟨k, v⟩ := p
    by_cases hk : k = id
    · simp [mapFind, hk] at h
    · simp only [mapFind, hk, if_false, List.cons_append] at h ⊢
      exact ih h

theorem mapEmplace_of_some (m : List (Atom × SystemRecord)) (id : Atom) (v r : SystemRecord)
    (h : mapFind m id = some r) : mapEmplace m id v = m := by
  simp [mapEmplace, h]

theorem mapEmplace_of_none (m : List (Atom × SystemRecord)) (id : Atom) (v : SystemRecord)
    (h : mapFind m id = none) : mapEmplace m id v = m ++ [(id, v)] := by
  simp [mapEmplace, h]

/-- After `emplace`, the key holds the record it had before, or the new one if it had none. -/
theorem mapFind_mapEmplace_self (m : List (Atom × SystemRecord)) (id : Atom)
    (v : SystemRecord) : mapFind (mapEmplace m id v) id = some ((mapFind m id).getD v) := by
  cases h : mapFind m id with
  | some r => simp [mapEmplace, h]
  | none =>
    rw [mapEmplace_of_none m id v h, mapFind_append_of_none m _ id h]
    simp [mapFind]

/-- The insertion `emplace` never changes a record that is already stored. -/
theorem mapFind_mapEmplace_of_some (m : List (Atom × SystemRecord)) (id k : Atom)
    (v r : SystemRecord) (h : mapFind m k = some r) :
    mapFind (mapEmplace m id v) k = some r := by
  cases hid : mapFind m id with
  | some r2 => rw [mapEmplace_of_some m id v r2 hid]; exact h
  | none => rw [mapEmplace_of_none m id v hid]; exact mapFind_append_of_some m _ k r h

/-- The insertion `emplace` does not touch other keys. -/
theorem mapFind_mapEmplace_of_ne (m : List (Atom × SystemRecord)) (id k : Atom)
    (v : SystemRecord) (h : k ≠ id) : mapFind (mapEmplace m id v) k = mapFind m k := by
  cases hid : mapFind m id with
  | some r2 => rw [mapEmplace_of_some m id v r2 hid]
  | none =>
    rw [mapEmplace_of_none m id v hid]
    cases hk : mapFind m k with
    | some r => exact mapFind_append_of_some m _ k r hk
    | none =>
      rw [mapFind_append_of_none m _ k hk]
      have h2 : ¬ id = k := fun e => h e.symm
      simp [mapFind, h2]

/-- Unique keys are kept by `emplace`. -/
theorem mapKeys_nodup_mapEmplace (m : List (Atom × SystemRecord)) (id : Atom)
    (v : SystemRecord) (h : (mapKeys m).Nodup) : (mapKeys (mapEmplace m id v)).Nodup := by
  cases hid : mapFind m id with
  | some r2 => rw [mapEmplace_of_some m id v r2 hid]; exact h
  | none =>
    rw [mapEmplace_of_none m id v hid]
    have hn : id ∉ mapKeys m := (mapFind_eq_none_iff m id).mp hid
    unfold mapKeys at *
    rw [List.map_append, List.nodup_append]
    refine ⟨h, by simp, ?_⟩
    intro a ha hb
    simp only [List.map_cons, List.map_nil, List.mem_singleton] at hb
    subst hb
    exact hn ha

theorem mem_mapKeys_mapEmplace (m : List (Atom × SystemRecord)) (id k : Atom)
    (v : SystemRecord) : k ∈ mapKeys (mapEmplace m id v) ↔ k = id ∨ k ∈ mapKeys m := by
  rw [← mapFind_isSome_iff, ← mapFind_isSome_iff]
  by_cases h : k = id
  · subst h
    simp [mapFind_mapEmplace_self]
  · rw [mapFind_mapEmplace_of_ne m id k v h]
    simp [h]

/-! ## Facts about the function-local statics -/

theorem Statics.initial_WF : Statics.initial.WF := by
  simp [Statics.WF, Statics.initial]

theorem find?_append_of_some {α : Type} (p : α → Bool) (l l2 : List α) (a : α)
    (h : l.find? p = some a) : (l ++ l2).find? p = some a := by
  simp [List.find?_append, h]

theorem staticIdOf_append_of_some (n n2 : Nat) (l l2 : List (ComponentType × Atom))
    (T : ComponentType) (id : Atom) (h : staticIdOf ⟨n, l⟩ T = some id) :
    staticIdOf ⟨n2, l ++ l2⟩ T = some id := by
  unfold staticIdOf at *
  cases hf : l.find? (fun p => p.1 = T) with
  | none => simp [hf] at h
  | some a =>
    rw [find?_append_of_some _ l l2 a hf]
    simpa [hf] using h

theorem staticIdOf_append_of_none (n n2 : Nat) (l l2 : List (ComponentType × Atom))
    (T : ComponentType) (h : staticIdOf ⟨n, l⟩ T = none) :
    staticIdOf ⟨n2, l ++ l2⟩ T = staticIdOf ⟨n2, l2⟩ T := by
  unfold staticIdOf at *
  cases hf : l.find? (fun p => p.1 = T) with
  | none => simp [List.find?_append, hf]
  | some a => simp [hf] at h

/-- After a call, the static of the requested type holds the returned identifier. -/
theorem staticIdOf_GetSystemIdForComponent_self (T : ComponentType) (st : Statics) :
    staticIdOf (GetSystemIdForComponent T st).2 T = some (GetSystemIdForComponent T st).1 := by
  unfold GetSystemIdForComponent
  cases h : staticIdOf st T with
  | some id => simpa using h
  | none =>
    simp only []
    rw [staticIdOf_append_of_none st.nextComponentTypeId _ st.componentIds _ T h]
    simp [staticIdOf]

/-- An initialised static never changes: `static const Atom id`. -/
theorem staticIdOf_GetSystemIdForComponent_of_some (T T2 : ComponentType) (st : Statics)
    (id : Atom) (h : staticIdOf st T = some id) :
    staticIdOf (GetSystemIdForComponent T2 st).2 T = some id := by
  unfold GetSystemIdForComponent
  cases h2 : staticIdOf st T2 with
  | some id2 => simpa using h
  | none => exact staticIdOf_append_of_some _ _ st.componentIds _ T id h

/-- A second call for the same component type returns the cached identifier and issues none. -/
theorem GetSystemIdForComponent_again (T : ComponentType) (st : Statics) :
    GetSystemIdForComponent T (GetSystemIdForComponent T st).2 =
      ((GetSystemIdForComponent T st).1, (GetSystemIdForComponent T st).2) := by
  have h := staticIdOf_GetSystemIdForComponent_self T st
  generalize GetSystemIdForComponent T st = r at h ⊢
  simp [GetSystemIdForComponent, h]

theorem mem_of_staticIdOf (st : Statics) (T : ComponentType) (id : Atom)
    (h : staticIdOf st T = some id) : (T, id) ∈ st.componentIds := by
  unfold staticIdOf at h
  cases hf : st.componentIds.find? (fun p => p.1 = T) with
  | none => simp [hf] at h
  | some a =>
    have hmem := List.mem_of_find?_eq_some hf
    have hp := List.find?_some hf
    simp only [hf, Option.map_some', Option.some.injEq] at h
    simp only [decide_eq_true_eq] at hp
    obtain ⟨a1, a2⟩ := a
    simp only at h hp
    subst h hp
    exact hmem

/-- Two component types never share a cached identifier. -/
theorem Statics.WF.injective (st : Statics) (hwf : st.WF) (T T2 : ComponentType) (id : Atom)
    (h1 : staticIdOf st T = some id) (h2 : staticIdOf st T2 = some id) : T = T2 := by
  have m1 := mem_of_staticIdOf st T id h1
  have m2 := mem_of_staticIdOf st T2 id h2
  have := List.inj_on_of_nodup_map hwf.1 m1 m2 rfl
  exact congrArg Prod.fst this

/-- Well-formedness of the statics is kept by `GetSystemIdForComponent`. -/
theorem Statics.WF.GetSystemIdForComponent (T : ComponentType) (st : Statics) (hwf : st.WF) :
    (GetSystemIdForComponent T st).2.WF := by
  unfold NovelRT.Ecs.GetSystemIdForComponent
  cases h : staticIdOf st T with
  | some id => simpa using hwf
  | none =>
    obtain ⟨hnd, hle⟩ := hwf
    refine ⟨?_, ?_⟩
    · simp only [getNextComponentTypeId, List.map_append, List.map_cons, List.map_nil]
      rw [List.nodup_append]
      refine ⟨hnd, by simp, ?_⟩
      intro a ha hb
      simp only [List.mem_singleton] at hb
      obtain ⟨p, hp, hpa⟩ := List.mem_map.mp ha
      have hp2 : p.2 ≤ st.nextComponentTypeId := hle p hp
      rw [hpa, hb] at hp2
      exact absurd hp2 (Nat.not_succ_le_self _)
    · intro p hp
      simp only [getNextComponentTypeId, List.mem_append, List.mem_singleton] at hp
      show p.2 ≤ st.nextComponentTypeId + 1
      rcases hp with hp | hp
      · exact Nat.le_succ_of_le (hle p hp)
      · rw [hp]

/-! ## Facts about registration -/

theorem RegisterSystemForComponent_fst (T : ComponentType) (f : Callback)
    (w : Statics × SystemScheduler) :
    (RegisterSystemForComponent T f w).1 = (GetSystemIdForComponent T w.1).1 := rfl

theorem RegisterSystemForComponent_statics (T : ComponentType) (f : Callback)
    (w : Statics × SystemScheduler) :
    (RegisterSystemForComponent T f w).2.1 = (GetSystemIdForComponent T w.1).2 := rfl

theorem RegisterSystemForComponent_systems (T : ComponentType) (f : Callback)
    (w : Statics × SystemScheduler) :
    (RegisterSystemForComponent T f w).2.2._systems =
      mapEmplace w.2._systems (GetSystemIdForComponent T w.1).1 ⟨f⟩ := rfl

theorem RegisterSystemForComponent_systemIds (T : ComponentType) (f : Callback)
    (w : Statics × SystemScheduler) :
    (RegisterSystemForComponent T f w).2.2._systemIds =
      w.2._systemIds ++ [(RegisterSystemForComponent T f w).1] := rfl

theorem RegistryConsistent_created (r : Nat) : RegistryConsistent (SystemScheduler.created r) := by
  intro id
  simp [SystemScheduler.created, mapKeys]

theorem RegistryConsistent_RegisterSystemForComponent (T : ComponentType) (f : Callback)
    (w : Statics × SystemScheduler) (h : RegistryConsistent w.2) :
    RegistryConsistent (RegisterSystemForComponent T f w).2.2 := by
  intro id
  rw [RegisterSystemForComponent_systemIds, RegisterSystemForComponent_systems,
    mem_mapKeys_mapEmplace, List.mem_append, List.mem_singleton, h id,
    RegisterSystemForComponent_fst]
  exact Or.comm

theorem registerAll_nil (w : Statics × SystemScheduler) : registerAll [] w = ([], w) := rfl

theorem registerAll_cons (T : ComponentType) (f : Callback)
    (rest : List (ComponentType × Callback)) (w : Statics × SystemScheduler) :
    registerAll ((T, f) :: rest) w =
      ((RegisterSystemForComponent T f w).1 ::
          (registerAll rest (RegisterSystemForComponent T f w).2).1,
        (registerAll rest (RegisterSystemForComponent T f w).2).2) := rfl

theorem RegistryConsistent_registerAll (calls : List (ComponentType × Callback))
    (w : Statics × SystemScheduler) (h : RegistryConsistent w.2) :
    RegistryConsistent (registerAll calls w).2.2 := by
  induction calls generalizing w with
  | nil => exact h
  | cons c rest ih =>
    obtain ⟨T, f⟩ := c
    rw [registerAll_cons]
    exact ih _ (RegistryConsistent_RegisterSystemForComponent T f w h)

theorem mapKeys_nodup_registerAll (calls : List (ComponentType × Callback))
    (w : Statics × SystemScheduler) (h : (mapKeys w.2._systems).Nodup) :
    (mapKeys (registerAll calls w).2.2._systems).Nodup := by
  induction calls generalizing w with
  | nil => exact h
  | cons c rest ih =>
    obtain ⟨T, f⟩ := c
    rw [registerAll_cons]
    exact ih _ (mapKeys_nodup_mapEmplace _ _ _ h)

/-- Records already stored survive any sequence of registrations. -/
theorem mapFind_registerAll_of_some (calls : List (ComponentType × Callback))
    (w : Statics × SystemScheduler) (id : Atom) (r : SystemRecord)
    (h : mapFind w.2._systems id = some r) :
    mapFind (registerAll calls w).2.2._systems id = some r := by
  induction calls generalizing w with
  | nil => exact h
  | cons c rest ih =>
    obtain ⟨T, f⟩ := c
    rw [registerAll_cons]
    exact ih _ (mapFind_mapEmplace_of_some _ _ _ _ _ h)

/-- Initialised statics survive any sequence of registrations. -/
theorem staticIdOf_registerAll_of_some (calls : List (ComponentType × Callback))
    (w : Statics × SystemScheduler) (T : ComponentType) (id : Atom)
    (h : staticIdOf w.1 T = some id) : staticIdOf (registerAll calls w).2.1 T = some id := by
  induction calls generalizing w with
  | nil => exact h
  | cons c rest ih =>
    obtain ⟨T2, f⟩ := c
    rw [registerAll_cons]
    exact ih _ (staticIdOf_GetSystemIdForComponent_of_some T T2 w.1 id h)

theorem Statics.WF.registerAll (calls : List (ComponentType × Callback))
    (w : Statics × SystemScheduler) (h : w.1.WF) : (registerAll calls w).2.1.WF := by
  induction calls generalizing w with
  | nil => exact h
  | cons c rest ih =>
    obtain ⟨T, f⟩ := c
    rw [registerAll_cons]
    exact ih _ (Statics.WF.GetSystemIdForComponent T w.1 h)

/-- The identifier list after a sequence of registrations is the old list followed by the
returned identifiers, in call order. -/
theorem systemIds_registerAll (calls : List (ComponentType × Callback))
    (w : Statics × SystemScheduler) :
    (registerAll calls w).2.2._systemIds = w.2._systemIds ++ (registerAll calls w).1 := by
  induction calls generalizing w with
  | nil => simp [registerAll_nil]
  | cons c rest ih =>
    obtain ⟨T, f⟩ := c
    rw [registerAll_cons]
    simp only []
    rw [ih, RegisterSystemForComponent_systemIds]
    simp

/-- Every returned identifier is the value of the static of its component type. -/
theorem returned_eq_staticIdOf (calls : List (ComponentType × Callback))
    (w : Statics × SystemScheduler) :
    (registerAll calls w).1.map some =
      calls.map (fun c => staticIdOf (registerAll calls w).2.1 c.1) := by
  induction calls generalizing w with
  | nil => rfl
  | cons c rest ih =>
    obtain ⟨T, f⟩ := c
    rw [registerAll_cons]
    simp only [List.map_cons]
    rw [ih]
    congr 1
    rw [staticIdOf_registerAll_of_some rest _ T (RegisterSystemForComponent T f w).1]
    exact staticIdOf_GetSystemIdForComponent_self T w.1

theorem exists_record_of_consistent (s : SystemScheduler) (h : RegistryConsistent s)
    (id : Atom) (hid : id ∈ s._systemIds) : ∃ r, mapFind s._systems id = some r := by
  have hk := (h id).mp hid
  rw [← mapFind_isSome_iff] at hk
  exact Option.isSome_iff_exists.mp hk

/-! ## Registration: the claims -/

/-- C1, as stated, fails: on a freshly constructed scheduler two registrations for the same
component type return the same identifier and leave one record in `_systems`, but
`_systemIds` then lists that identifier twice, so the registry does not hold exactly one
entry for it. -/
theorem registerTwice_duplicates_systemId :
    (registerTwice 0 10 11 (Statics.initial, SystemScheduler.created 0)).1 = (1, 1) ∧
    (registerTwice 0 10 11 (Statics.initial, SystemScheduler.created 0)).2.2._systems =
      [(1, ⟨10⟩)] ∧
    (registerTwice 0 10 11 (Statics.initial, SystemScheduler.created 0)).2.2._systemIds =
      [1, 1] ∧
    ¬ ((registerTwice 0 10 11
        (Statics.initial, SystemScheduler.created 0)).2.2._systemIds.count 1 = 1) := by
  decide

/-- C1, amended: for every state whose map has unique keys, every component type and every
pair of callbacks, the two registrations return the same identifier, the second one leaves
the map `_systems` as the first one left it (no second callback entry), and the map holds
exactly one record for that identifier. -/
theorem registerTwice_same_id_one_record (w : Statics × SystemScheduler) (T : ComponentType)
    (f g : Callback) (h : (mapKeys w.2._systems).Nodup) :
    (registerTwice T f g w).1.1 = (registerTwice T f g w).1.2 ∧
    (registerTwice T f g w).2.2._systems = (RegisterSystemForComponent T f w).2.2._systems ∧
    (mapKeys (registerTwice T f g w).2.2._systems).count (registerTwice T f g w).1.1 = 1 := by
  have hid : (RegisterSystemForComponent T g (RegisterSystemForComponent T f w).2).1 =
      (RegisterSystemForComponent T f w).1 := by
    rw [RegisterSystemForComponent_fst, RegisterSystemForComponent_statics,
      GetSystemIdForComponent_again]
    rfl
  have hsome : mapFind (RegisterSystemForComponent T f w).2.2._systems
      (RegisterSystemForComponent T f w).1 =
      some ((mapFind w.2._systems (GetSystemIdForComponent T w.1).1).getD ⟨f⟩) :=
    mapFind_mapEmplace_self _ _ _
  have hmap : (RegisterSystemForComponent T g (RegisterSystemForComponent T f w).2).2.2._systems =
      (RegisterSystemForComponent T f w).2.2._systems := by
    rw [RegisterSystemForComponent_systems, ← RegisterSystemForComponent_fst T g, hid]
    exact mapEmplace_of_some _ _ _ _ hsome
  refine ⟨hid.symm, hmap, ?_⟩
  show (mapKeys (RegisterSystemForComponent T g
    (RegisterSystemForComponent T f w).2).2.2._systems).count
      (RegisterSystemForComponent T f w).1 = 1
  rw [hmap]
  apply List.count_eq_one_of_mem
  · exact mapKeys_nodup_mapEmplace _ _ _ h
  · rw [← mapFind_isSome_iff, hsome]
    rfl

/-- Witness for C1, amended: component type 0 with callbacks 10 and 11 on a freshly
constructed scheduler. -/
theorem registerTwice_same_id_one_record_witness :
    (mapKeys (Statics.initial, SystemScheduler.created 0).2._systems).Nodup ∧
    ((registerTwice 0 10 11 (Statics.initial, SystemScheduler.created 0)).1.1 =
      (registerTwice 0 10 11 (Statics.initial, SystemScheduler.created 0)).1.2 ∧
    (registerTwice 0 10 11 (Statics.initial, SystemScheduler.created 0)).2.2._systems =
      (RegisterSystemForComponent 0 10
        (Statics.initial, SystemScheduler.created 0)).2.2._systems ∧
    (mapKeys (registerTwice 0 10 11
      (Statics.initial, SystemScheduler.created 0)).2.2._systems).count
        (registerTwice 0 10 11 (Statics.initial, SystemScheduler.created 0)).1.1 = 1) :=
  ⟨by decide, registerTwice_same_id_one_record
    (Statics.initial, SystemScheduler.created 0) 0 10 11 (by decide)⟩

/-- C10: in every state reached from a fresh scheduler (empty identifier list, empty map)
by any sequence of registrations (repeated component types included), the identifiers listed
in `_systemIds` are exactly the keys of `_systems`, and the record of every listed identifier
is found. -/
theorem registry_consistent_after_registrations (st : Statics) (s : SystemScheduler)
    (calls : List (ComponentType × Callback)) (hids : s._systemIds = [])
    (hsys : s._systems = []) :
    (∀ id, id ∈ (registerAll calls (st, s)).2.2._systemIds ↔
      id ∈ mapKeys (registerAll calls (st, s)).2.2._systems) ∧
    (∀ id ∈ (registerAll calls (st, s)).2.2._systemIds,
      ∃ rec, mapFind (registerAll calls (st, s)).2.2._systems id = some rec) := by
  have h0 : RegistryConsistent s := by
    intro id
    simp [hids, hsys, mapKeys]
  have h := RegistryConsistent_registerAll calls (st, s) h0
  exact ⟨h, fun id hid => exists_record_of_consistent _ h id hid⟩

/-- Witness for C10: component type 0 registered twice and component type 1 once on a
freshly constructed scheduler; both listed identifiers have their record. -/
theorem registry_consistent_after_registrations_witness :
    ((SystemScheduler.created 0)._systemIds = [] ∧ (SystemScheduler.created 0)._systems = []) ∧
    (registerAll [(0, 10), (0, 11), (1, 12)]
      (Statics.initial, SystemScheduler.created 0)).2.2._systemIds = [1, 1, 2] ∧
    ∀ id ∈ (registerAll [(0, 10), (0, 11), (1, 12)]
        (Statics.initial, SystemScheduler.created 0)).2.2._systemIds,
      ∃ rec, mapFind (registerAll [(0, 10), (0, 11), (1, 12)]
        (Statics.initial, SystemScheduler.created 0)).2.2._systems id = some rec :=
  ⟨⟨rfl, rfl⟩, by decide,
    (registry_consistent_after_registrations Statics.initial (SystemScheduler.created 0)
      [(0, 10), (0, 11), (1, 12)] rfl rfl).2⟩

theorem GetSystemIdForComponent_of_some (T : ComponentType) (st : Statics) (id : Atom)
    (h : staticIdOf st T = some id) : GetSystemIdForComponent T st = (id, st) := by
  simp [GetSystemIdForComponent, h]

/-- C7: once a registration for `T` has stored `f` under `T`'s identifier, the record stays:
after any later registrations and a further registration for `T` with `g`, the returned
identifier is the same, the record under it is still `f`, every record stored after the
first call is still stored unchanged, the call with `g` changes no record at all, and the
map holds at most one record per identifier. -/
theorem stored_record_is_immutable (w : Statics × SystemScheduler) (T : ComponentType)
    (f g : Callback) (later : List (ComponentType × Callback))
    (hN : (mapKeys w.2._systems).Nodup)
    (hfresh : mapFind w.2._systems (GetSystemIdForComponent T w.1).1 = none) :
    mapFind (RegisterSystemForComponent T f w).2.2._systems
      (RegisterSystemForComponent T f w).1 = some ⟨f⟩ ∧
    (registerAgainLater T g later (RegisterSystemForComponent T f w).2).1 =
      (RegisterSystemForComponent T f w).1 ∧
    mapFind (registerAgainLater T g later (RegisterSystemForComponent T f w).2).2.2._systems
      (RegisterSystemForComponent T f w).1 = some ⟨f⟩ ∧
    (∀ id rec, mapFind (RegisterSystemForComponent T f w).2.2._systems id = some rec →
      mapFind (registerAgainLater T g later
        (RegisterSystemForComponent T f w).2).2.2._systems id = some rec) ∧
    (registerAgainLater T g later (RegisterSystemForComponent T f w).2).2.2._systems =
      (registerAll later (RegisterSystemForComponent T f w).2).2.2._systems ∧
    (mapKeys (registerAgainLater T g later
      (RegisterSystemForComponent T f w).2).2.2._systems).Nodup := by
  have hstored : mapFind (RegisterSystemForComponent T f w).2.2._systems
      (RegisterSystemForComponent T f w).1 = some ⟨f⟩ := by
    have := mapFind_mapEmplace_self w.2._systems (GetSystemIdForComponent T w.1).1 ⟨f⟩
    rw [hfresh] at this
    exact this
  have hstatic : staticIdOf (registerAll later (RegisterSystemForComponent T f w).2).2.1 T =
      some (RegisterSystemForComponent T f w).1 :=
    staticIdOf_registerAll_of_some later _ T _ (staticIdOf_GetSystemIdForComponent_self T w.1)
  have hid : (registerAgainLater T g later (RegisterSystemForComponent T f w).2).1 =
      (RegisterSystemForComponent T f w).1 := by
    unfold registerAgainLater
    rw [RegisterSystemForComponent_fst, GetSystemIdForComponent_of_some T _ _ hstatic]
  have hkeep : ∀ id rec, mapFind (RegisterSystemForComponent T f w).2.2._systems id = some rec →
      mapFind (registerAgainLater T g later
        (RegisterSystemForComponent T f w).2).2.2._systems id = some rec := by
    intro id rec hrec
    unfold registerAgainLater
    rw [RegisterSystemForComponent_systems]
    exact mapFind_mapEmplace_of_some _ _ _ _ _ (mapFind_registerAll_of_some later _ id rec hrec)
  refine ⟨hstored, hid, hkeep _ _ hstored, hkeep, ?_, ?_⟩
  · unfold registerAgainLater
    rw [RegisterSystemForComponent_systems, GetSystemIdForComponent_of_some T _ _ hstatic]
    exact mapEmplace_of_some _ _ _ _ (mapFind_registerAll_of_some later _ _ _ hstored)
  · unfold registerAgainLater
    rw [RegisterSystemForComponent_systems]
    exact mapKeys_nodup_mapEmplace _ _ _
      (mapKeys_nodup_registerAll later _ (mapKeys_nodup_mapEmplace _ _ _ hN))

/-- Witness for C7: component type 0 registered with callback 10 on a freshly constructed
scheduler, then component type 1 with callback 20, then component type 0 again with 11. -/
theorem stored_record_is_immutable_witness :
    ((mapKeys (Statics.initial, SystemScheduler.created 0).2._systems).Nodup ∧
      mapFind (Statics.initial, SystemScheduler.created 0).2._systems
        (GetSystemIdForComponent 0 (Statics.initial, SystemScheduler.created 0).1).1 = none) ∧
    mapFind (registerAgainLater 0 11 [(1, 20)] (RegisterSystemForComponent 0 10
      (Statics.initial, SystemScheduler.created 0)).2).2.2._systems
        (RegisterSystemForComponent 0 10 (Statics.initial, SystemScheduler.created 0)).1 =
      some ⟨10⟩ :=
  ⟨⟨by decide, by decide⟩,
    (stored_record_is_immutable (Statics.initial, SystemScheduler.created 0) 0 10 11 [(1, 20)]
      (by decide) (by decide)).2.2.1⟩

/-- Registrations for pairwise distinct component types on a scheduler with an empty
identifier list leave pairwise distinct identifiers in the list. -/
theorem systemIds_nodup_registerAll (st : Statics) (s : SystemScheduler)
    (calls : List (ComponentType × Callback)) (hs : s._systemIds = []) (hwf : st.WF)
    (hT : (calls.map Prod.fst).Nodup) :
    (registerAll calls (st, s)).2.2._systemIds.Nodup := by
  have h1 : (registerAll calls (st, s)).2.2._systemIds = (registerAll calls (st, s)).1 := by
    rw [systemIds_registerAll]
    simp [hs]
  have h2 := returned_eq_staticIdOf calls (st, s)
  have hwf2 : (registerAll calls (st, s)).2.1.WF := Statics.WF.registerAll calls (st, s) hwf
  rw [h1]
  apply List.Nodup.of_map some
  rw [h2]
  have hcomp : calls.map (fun c => staticIdOf (registerAll calls (st, s)).2.1 c.1) =
      (calls.map Prod.fst).map (staticIdOf (registerAll calls (st, s)).2.1) := by
    rw [List.map_map]
    rfl
  rw [hcomp]
  apply List.Nodup.map_on _ hT
  intro T hTm T2 _ heq
  have hsome : ∃ a, staticIdOf (registerAll calls (st, s)).2.1 T = some a := by
    have hmem : staticIdOf (registerAll calls (st, s)).2.1 T ∈
        (calls.map Prod.fst).map (staticIdOf (registerAll calls (st, s)).2.1) :=
      List.mem_map_of_mem _ hTm
    rw [← hcomp, ← h2] at hmem
    obtain ⟨a, _, ha⟩ := List.mem_map.mp hmem
    exact ⟨a, ha.symm⟩
  obtain ⟨a, ha⟩ := hsome
  exact Statics.WF.injective _ hwf2 T T2 a ha (heq ▸ ha)

/-- C3: on a fresh scheduler (empty identifier list), registrations for pairwise distinct
component types leave `_systemIds` equal to the list of returned identifiers in call order,
which is the list of the identifiers of the component types `T1..Tn`; these are pairwise
distinct; and every single registration appends its identifier at the end of the list it
found, leaving the earlier entries in place. -/
theorem systemIds_in_registration_order (st : Statics) (s : SystemScheduler)
    (calls : List (ComponentType × Callback)) (hs : s._systemIds = []) (hwf : st.WF)
    (hT : (calls.map Prod.fst).Nodup) :
    (registerAll calls (st, s)).2.2._systemIds = (registerAll calls (st, s)).1 ∧
    (registerAll calls (st, s)).2.2._systemIds.map some =
      calls.map (fun c => staticIdOf (registerAll calls (st, s)).2.1 c.1) ∧
    (registerAll calls (st, s)).2.2._systemIds.Nodup ∧
    (∀ (T : ComponentType) (f : Callback) (w : Statics × SystemScheduler),
      (RegisterSystemForComponent T f w).2.2._systemIds =
        w.2._systemIds ++ [(RegisterSystemForComponent T f w).1]) := by
  have h1 : (registerAll calls (st, s)).2.2._systemIds = (registerAll calls (st, s)).1 := by
    rw [systemIds_registerAll]
    simp [hs]
  have h2 := returned_eq_staticIdOf calls (st, s)
  exact ⟨h1, by rw [h1]; exact h2, systemIds_nodup_registerAll st s calls hs hwf hT,
    fun T f w => rfl⟩

/-- Witness for C3: component types 3, 1, 2 registered in that order at process start on a
freshly constructed scheduler; the list is `[1, 2, 3]`, the identifiers in call order. -/
theorem systemIds_in_registration_order_witness :
    ((SystemScheduler.created 2)._systemIds = [] ∧ Statics.initial.WF ∧
      (([(3, 10), (1, 11), (2, 12)] : List (ComponentType × Callback)).map Prod.fst).Nodup) ∧
    (registerAll [(3, 10), (1, 11), (2, 12)]
      (Statics.initial, SystemScheduler.created 2)).2.2._systemIds =
      (registerAll [(3, 10), (1, 11), (2, 12)]
        (Statics.initial, SystemScheduler.created 2)).1 ∧
    (registerAll [(3, 10), (1, 11), (2, 12)]
      (Statics.initial, SystemScheduler.created 2)).2.2._systemIds = [1, 2, 3] :=
  ⟨⟨rfl, by decide, by decide⟩,
    (systemIds_in_registration_order Statics.initial (SystemScheduler.created 2)
      [(3, 10), (1, 11), (2, 12)] rfl (by decide) (by decide)).1, by decide⟩

/-! ## Facts about the distribution step -/

theorem distributeFrom_length (N : Nat) (ids : List Atom) (k : Nat)
    (queues : List QueueLockPair) : (distributeFrom N k ids queues).length = queues.length := by
  induction ids generalizing k queues with
  | nil => rfl
  | cons id rest ih =>
    simp only [distributeFrom]
    rw [ih]
    simp

/-- Queue `i` after a distribution pass: what it held, followed by its picks. -/
theorem distributeFrom_getElem? (N : Nat) (ids : List Atom) (k : Nat)
    (queues : List QueueLockPair) (i : Nat) :
    (distributeFrom N k ids queues)[i]? =
      (queues[i]?).map (fun q => ⟨q.systemIds ++ picks N k i ids⟩) := by
  induction ids generalizing k queues with
  | nil =>
    simp only [distributeFrom, picks, List.append_nil]
    cases queues[i]? <;> rfl
  | cons id rest ih =>
    simp only [distributeFrom]
    rw [ih, List.getElem?_modify]
    cases hq : queues[i]? with
    | none => rfl
    | some q =>
      by_cases hk : k % N = i
      · simp [picks, hk]
      · simp [picks, hk]

theorem add_mod_ne_self (N k m : Nat) (h0 : 0 < m) (hm : m < N) : (k + m) % N ≠ k % N := by
  intro h
  have h1 : (k + m) ≡ (k + 0) [MOD N] := by
    show (k + m) % N = (k + 0) % N
    simpa using h
  have h2 : m ≡ 0 [MOD N] := Nat.ModEq.add_left_cancel' k h1
  have h3 : m % N = 0 := by
    have : m % N = 0 % N := h2
    simpa using this
  rw [Nat.mod_eq_of_lt hm] at h3
  omega

/-- The picks of queue `i`, when the first index handed to it is `g`, are the identifiers at
the indices `g`, `g + N`, `g + 2 N`, ... -/
theorem picks_getElem? (N i : Nat) (ids : List Atom) (k g j : Nat) (hg : g < N)
    (hhit : (k + g) % N = i) (hmin : ∀ g2, g2 < g → (k + g2) % N ≠ i) :
    (picks N k i ids)[j]? = ids[g + j * N]? := by
  induction ids generalizing k g j with
  | nil => simp [picks]
  | cons id rest ih =>
    cases g with
    | zero =>
      have hk : k % N = i := by simpa using hhit
      simp only [picks, hk, if_true]
      cases j with
      | zero => simp
      | succ j2 =>
        have hN : 0 < N := by omega
        have hstep : (rest)[N - 1 + j2 * N]? = (id :: rest)[0 + (j2 + 1) * N]? := by
          have : 0 + (j2 + 1) * N = (N - 1 + j2 * N) + 1 := by
            rw [Nat.add_mul]
            omega
          rw [this, List.getElem?_cons_succ]
        rw [List.getElem?_cons_succ, ← hstep]
        apply ih (k + 1) (N - 1) j2 (by omega)
        · have : k + 1 + (N - 1) = k + N := by omega
          rw [this, Nat.add_mod_right]
          exact hk
        · intro g2 hg2 hc
          have : k + 1 + g2 = k + (g2 + 1) := by omega
          rw [this, ← hk] at hc
          exact add_mod_ne_self N k (g2 + 1) (by omega) (by omega) hc
    | succ g0 =>
      have hk : ¬ k % N = i := by
        have := hmin 0 (by omega)
        simpa using this
      simp only [picks, hk, if_false]
      have hstep : (id :: rest)[g0 + 1 + j * N]? = rest[g0 + j * N]? := by
        have : g0 + 1 + j * N = (g0 + j * N) + 1 := by omega
        rw [this, List.getElem?_cons_succ]
      rw [hstep]
      apply ih (k + 1) g0 j (by omega)
      · have : k + 1 + g0 = k + (g0 + 1) := by omega
        rw [this]
        exact hhit
      · intro g2 hg2
        have : k + 1 + g2 = k + (g2 + 1) := by omega
        rw [this]
        exact hmin (g2 + 1) (by omega)

/-- From index zero, queue `i` of `N` is handed the identifiers at `i`, `i + N`, ... -/
theorem picks_zero_getElem? (N i : Nat) (ids : List Atom) (j : Nat) (hi : i < N) :
    (picks N 0 i ids)[j]? = ids[i + j * N]? := by
  apply picks_getElem? N i ids 0 i j hi
  · simp [Nat.mod_eq_of_lt hi]
  · intro g2 hg2
    have : g2 < N := by omega
    simp only [Nat.zero_add, Nat.mod_eq_of_lt this]
    omega

/-- Distribution over `N` empty queues: queue `i` ends up with exactly its picks. -/
theorem distribute_replicate_getElem? (N : Nat) (ids : List Atom) (i : Nat) (hi : i < N) :
    (distribute ids (List.replicate N ⟨[]⟩))[i]? = some ⟨picks N 0 i ids⟩ := by
  unfold distribute
  rw [distributeFrom_getElem?]
  simp [hi]

/-! ## Facts about the worker rounds -/

theorem invokeAll_eq_map (raises : CallOutcome) (systems : List (Atom × SystemRecord))
    (delta : Timestamp) (ids : List Atom)
    (h : ∀ id ∈ ids, ∃ r, mapFind systems id = some r ∧ raises r.systemPtr delta = false) :
    invokeAll raises systems delta ids = .ok (ids.map (invocationOf systems delta)) := by
  induction ids with
  | nil => rfl
  | cons id rest ih =>
    obtain ⟨r, hr, hnr⟩ := h id (List.mem_cons_self _ _)
    have ih2 := ih (fun x hx => h x (List.mem_cons_of_mem _ hx))
    simp [invokeAll, hr, hnr, ih2, invocationOf]

/-- Every failure of a round of calls is a `SystemCallbackFailure`. -/
theorem invokeAll_error (raises : CallOutcome) (systems : List (Atom × SystemRecord))
    (delta : Timestamp) (ids : List Atom) (e : SchedulerError)
    (h : invokeAll raises systems delta ids = .error e) : e = .SystemCallbackFailure := by
  induction ids generalizing e with
  | nil => exact Except.noConfusion h
  | cons id rest ih =>
    simp only [invokeAll] at h
    cases hf : mapFind systems id with
    | none =>
      rw [hf] at h
      exact (Except.error.inj h).symm
    | some r =>
      rw [hf] at h
      simp only [] at h
      by_cases hr : raises r.systemPtr delta = true
      · rw [if_pos hr] at h
        exact (Except.error.inj h).symm
      · rw [if_neg hr] at h
        cases hrest : invokeAll raises systems delta rest with
        | error e2 =>
          rw [hrest] at h
          have := Except.error.inj h
          rw [← this]
          exact ih e2 hrest
        | ok log =>
          rw [hrest] at h
          exact Except.noConfusion h

/-- A queue that holds a system whose callback raises is not called to the end. -/
theorem invokeAll_of_raises (raises : CallOutcome) (systems : List (Atom × SystemRecord))
    (delta : Timestamp) (ids : List Atom) (id : Atom) (r : SystemRecord) (hid : id ∈ ids)
    (hr : mapFind systems id = some r) (hraise : raises r.systemPtr delta = true) :
    invokeAll raises systems delta ids = .error .SystemCallbackFailure := by
  cases h : invokeAll raises systems delta ids with
  | error e => rw [invokeAll_error raises systems delta ids e h]
  | ok log =>
    exfalso
    induction ids generalizing log with
    | nil => simp at hid
    | cons x rest ih =>
      simp only [invokeAll] at h
      cases hf : mapFind systems x with
      | none =>
        rw [hf] at h
        exact Except.noConfusion h
      | some rx =>
        rw [hf] at h
        simp only [] at h
        by_cases hrx : raises rx.systemPtr delta = true
        · rw [if_pos hrx] at h
          exact Except.noConfusion h
        · rw [if_neg hrx] at h
          cases hrest : invokeAll raises systems delta rest with
          | error e2 =>
            rw [hrest] at h
            exact Except.noConfusion h
          | ok log2 =>
            rcases List.mem_cons.mp hid with hx | hx
            · subst hx
              rw [hr] at hf
              have : r = rx := Option.some.inj hf
              subst this
              exact hrx hraise
            · exact ih hx log2 hrest

theorem allIdle_iff (m n : Nat) : allIdle m n = true ↔ ∀ j, j < n → m.testBit j = true := by
  simp [allIdle, List.all_eq_true]

theorem testBit_markIdle_self (m i : Nat) : (markIdle m i).testBit i = true := by
  simp [markIdle, Nat.testBit_lor, Nat.one_shiftLeft, Nat.testBit_two_pow]

theorem testBit_markIdle_of_testBit (m i j : Nat) (h : m.testBit j = true) :
    (markIdle m i).testBit j = true := by
  simp [markIdle, Nat.testBit_lor, h]

/-- A worker's busy/idle round leaves every idle bit of the 64-bit map idle. -/
theorem testBit_markIdle_markBusy (m i j : Nat) (hj : j < BITMAP_WIDTH)
    (h : m.testBit j = true) : (markIdle (markBusy m i) i).testBit j = true := by
  by_cases hij : i = j
  · subst hij
    exact testBit_markIdle_self _ _
  · apply testBit_markIdle_of_testBit
    have hmask : ((2 ^ BITMAP_WIDTH - 1) ^^^ (1 <<< i)).testBit j = true := by
      rw [Nat.testBit_xor, Nat.testBit_two_pow_sub_one, Nat.one_shiftLeft, Nat.testBit_two_pow]
      simp [hj, hij]
    unfold markBusy
    rw [Nat.testBit_land, h, hmask]
    rfl

theorem set_empty_of_not_JobAvailable (s : SystemScheduler) (i : Nat)
    (h : JobAvailable s i = false) :
    s._threadWorkQueues.set i ⟨[]⟩ = s._threadWorkQueues := by
  apply List.ext_getElem?
  intro j
  rw [List.getElem?_set]
  by_cases hij : i = j
  · subst hij
    simp only [if_true]
    unfold JobAvailable at h
    cases hq : s._threadWorkQueues[i]? with
    | none =>
      have : ¬ i < s._threadWorkQueues.length := by
        intro hlt
        rw [List.getElem?_eq_getElem hlt] at hq
        exact Option.noConfusion hq
      simp [this]
    | some q =>
      have hlt : i < s._threadWorkQueues.length := by
        by_contra hc
        rw [List.getElem?_eq_none (by omega)] at hq
        exact Option.noConfusion hq
      rw [hq] at h
      obtain ⟨ids⟩ := q
      have : ids = [] := by simpa using h
      simp [hlt, this]
  · simp [hij]

theorem queue_empty_of_not_JobAvailable (s : SystemScheduler) (i : Nat)
    (h : JobAvailable s i = false) : (s._threadWorkQueues.getD i ⟨[]⟩).systemIds = [] := by
  rw [List.getD_eq_getElem?_getD]
  unfold JobAvailable at h
  cases hq : s._threadWorkQueues[i]? with
  | none => rfl
  | some q =>
    rw [hq] at h
    obtain ⟨ids⟩ := q
    simpa using h

/-- One worker round: the calls for the worker's queue, and on success the state with the
queue drained and the worker idle again. -/
theorem CycleForJob_eq_match (raises : CallOutcome) (s : SystemScheduler) (i : Nat) :
    CycleForJob raises s i =
      match invokeAll raises s._systems s._currentDelta
        (s._threadWorkQueues.getD i ⟨[]⟩).systemIds with
      | .error e => .error e
      | .ok log => .ok (workerDone s i, log) := by
  unfold CycleForJob
  cases hj : JobAvailable s i with
  | true =>
    simp only [if_true]
    cases invokeAll raises s._systems s._currentDelta
      (s._threadWorkQueues.getD i ⟨[]⟩).systemIds with
    | error e => rfl
    | ok log => simp [workerDone, hj]
  | false =>
    have h1 := set_empty_of_not_JobAvailable s i hj
    have h2 := queue_empty_of_not_JobAvailable s i hj
    rw [h2]
    simp [workerDone, hj, h1, invokeAll]

/-- One worker round succeeds when every queued identifier has a record whose callback
returns; its log is the queue, entry by entry. -/
theorem CycleForJob_eq (raises : CallOutcome) (s : SystemScheduler) (i : Nat)
    (h : ∀ id ∈ (s._threadWorkQueues.getD i ⟨[]⟩).systemIds,
      ∃ r, mapFind s._systems id = some r ∧ raises r.systemPtr s._currentDelta = false) :
    CycleForJob raises s i = .ok (workerDone s i,
      (s._threadWorkQueues.getD i ⟨[]⟩).systemIds.map
        (invocationOf s._systems s._currentDelta)) := by
  rw [CycleForJob_eq_match, invokeAll_eq_map _ _ _ _ h]

theorem workerDone_systems (s : SystemScheduler) (i : Nat) :
    (workerDone s i)._systems = s._systems := rfl

theorem workerDone_currentDelta (s : SystemScheduler) (i : Nat) :
    (workerDone s i)._currentDelta = s._currentDelta := rfl

theorem workerDone_queues (s : SystemScheduler) (i : Nat) :
    (workerDone s i)._threadWorkQueues = s._threadWorkQueues.set i ⟨[]⟩ := rfl

theorem workerDone_testBit (s : SystemScheduler) (i j : Nat) (hj : j < BITMAP_WIDTH)
    (h : s._threadAvailabilityMap.testBit j = true) :
    (workerDone s i)._threadAvailabilityMap.testBit j = true := by
  unfold workerDone
  by_cases ha : JobAvailable s i = true
  · simp only [ha, if_true]
    exact testBit_markIdle_markBusy _ _ _ hj h
  · simp only [ha]
    exact h

theorem getD_set_of_ne (qs : List QueueLockPair) (i j : Nat) (q d : QueueLockPair)
    (h : i ≠ j) : (qs.set i q).getD j d = qs.getD j d := by
  rw [List.getD_eq_getElem?_getD, List.getD_eq_getElem?_getD, List.getElem?_set]
  simp [h]

/-- The rounds of pairwise distinct workers succeed when every queued identifier has a
record whose callback returns; worker `i` logs its own queue. -/
theorem runWorkers_eq (raises : CallOutcome) (l : List Nat) (s : SystemScheduler)
    (hl : l.Nodup)
    (h : ∀ i ∈ l, ∀ id ∈ (s._threadWorkQueues.getD i ⟨[]⟩).systemIds,
      ∃ r, mapFind s._systems id = some r ∧ raises r.systemPtr s._currentDelta = false) :
    runWorkers raises s l = .ok (l.foldl workerDone s,
      l.map (fun i => (s._threadWorkQueues.getD i ⟨[]⟩).systemIds.map
        (invocationOf s._systems s._currentDelta))) := by
  induction l generalizing s with
  | nil => rfl
  | cons i rest ih =>
    have hni : i ∉ rest := (List.nodup_cons.mp hl).1
    have hrest : rest.Nodup := (List.nodup_cons.mp hl).2
    have hq : ∀ j ∈ rest, ((workerDone s i)._threadWorkQueues.getD j ⟨[]⟩) =
        s._threadWorkQueues.getD j ⟨[]⟩ := by
      intro j hj
      rw [workerDone_queues]
      exact getD_set_of_ne _ _ _ _ _ (fun e => hni (e ▸ hj))
    have ih2 := ih (workerDone s i) hrest (by
      intro j hj id hid
      rw [hq j hj] at hid
      exact h j (List.mem_cons_of_mem _ hj) id hid)
    simp only [runWorkers]
    rw [CycleForJob_eq raises s i (h i (List.mem_cons_self _ _))]
    simp only []
    rw [ih2]
    simp only [List.foldl_cons, List.map_cons, workerDone_systems, workerDone_currentDelta]
    congr 3
    apply List.map_congr_left
    intro j hj
    rw [hq j hj]

/-- The rounds fail as soon as the queue of one of the workers holds a system whose callback
raises: the frame ends with `SystemCallbackFailure`. -/
theorem runWorkers_of_raises (raises : CallOutcome) (l : List Nat) (s : SystemScheduler)
    (i : Nat) (id : Atom) (r : SystemRecord) (hi : i ∈ l)
    (hid : id ∈ (s._threadWorkQueues.getD i ⟨[]⟩).systemIds)
    (hr : mapFind s._systems id = some r)
    (hraise : raises r.systemPtr s._currentDelta = true) :
    runWorkers raises s l = .error .SystemCallbackFailure := by
  induction l generalizing s with
  | nil => simp at hi
  | cons j rest ih =>
    simp only [runWorkers]
    rw [CycleForJob_eq_match]
    cases hinv : invokeAll raises s._systems s._currentDelta
        (s._threadWorkQueues.getD j ⟨[]⟩).systemIds with
    | error e =>
      simp only []
      rw [invokeAll_error _ _ _ _ e hinv]
    | ok log =>
      simp only []
      have hij : i ≠ j := by
        intro e
        subst e
        rw [invokeAll_of_raises raises _ _ _ id r hid hr hraise] at hinv
        exact Except.noConfusion hinv
      have hmem : i ∈ rest := by
        rcases List.mem_cons.mp hi with h | h
        · exact absurd h hij
        · exact h
      have hq : (workerDone s j)._threadWorkQueues.getD i ⟨[]⟩ =
          s._threadWorkQueues.getD i ⟨[]⟩ := by
        rw [workerDone_queues]
        exact getD_set_of_ne _ _ _ _ _ (fun e => hij e.symm)
      rw [ih (workerDone s j) hmem (by rw [hq]; exact hid) hr hraise]

theorem foldl_workerDone_systems (l : List Nat) (s : SystemScheduler) :
    (l.foldl workerDone s)._systems = s._systems := by
  induction l generalizing s with
  | nil => rfl
  | cons i rest ih => rw [List.foldl_cons, ih]; rfl

theorem foldl_workerDone_systemIds (l : List Nat) (s : SystemScheduler) :
    (l.foldl workerDone s)._systemIds = s._systemIds := by
  induction l generalizing s with
  | nil => rfl
  | cons i rest ih => rw [List.foldl_cons, ih]; rfl

theorem foldl_workerDone_shouldShutDown (l : List Nat) (s : SystemScheduler) :
    (l.foldl workerDone s)._shouldShutDown = s._shouldShutDown := by
  induction l generalizing s with
  | nil => rfl
  | cons i rest ih => rw [List.foldl_cons, ih]; rfl

theorem foldl_workerDone_testBit (l : List Nat) (s : SystemScheduler) (j : Nat)
    (hj : j < BITMAP_WIDTH) (h : s._threadAvailabilityMap.testBit j = true) :
    (l.foldl workerDone s)._threadAvailabilityMap.testBit j = true := by
  induction l generalizing s with
  | nil => exact h
  | cons i rest ih =>
    rw [List.foldl_cons]
    exact ih _ (workerDone_testBit s i j hj h)

/-- After the rounds of the workers in `l`, their queues are drained and the others are as
they were. -/
theorem foldl_workerDone_queues (l : List Nat) (s : SystemScheduler) (j : Nat) :
    (l.foldl workerDone s)._threadWorkQueues[j]? =
      if j ∈ l then (s._threadWorkQueues[j]?).map (fun _ => ⟨[]⟩)
      else s._threadWorkQueues[j]? := by
  induction l generalizing s with
  | nil => simp
  | cons i rest ih =>
    rw [List.foldl_cons, ih, workerDone_queues, List.getElem?_set]
    by_cases hij : i = j
    · subst hij
      by_cases hlt : i < s._threadWorkQueues.length
      · by_cases hr : i ∈ rest <;> simp [hr, hlt]
      · have hnone : s._threadWorkQueues[i]? = none := List.getElem?_eq_none (by omega)
        by_cases hr : i ∈ rest <;> simp [hr, hlt, hnone]
    · have hji : ¬ j = i := fun e => hij e.symm
      by_cases hr : j ∈ rest <;> simp [hr, hij, hji]

/-- Once all workers `0 .. N-1` have finished their rounds, all `N` queues are drained. -/
theorem foldl_workerDone_range_queues (s : SystemScheduler) :
    ((List.range s._threadWorkQueues.length).foldl workerDone s)._threadWorkQueues =
      List.replicate s._threadWorkQueues.length ⟨[]⟩ := by
  apply List.ext_getElem?
  intro j
  rw [foldl_workerDone_queues, List.getElem?_replicate]
  by_cases hj : j < s._threadWorkQueues.length
  · simp [hj, List.getElem?_eq_getElem hj]
  · have hnone : s._threadWorkQueues[j]? = none := List.getElem?_eq_none (by omega)
    simp [hj, hnone]

theorem mem_of_mem_picks (N i : Nat) (ids : List Atom) (k : Nat) (id : Atom)
    (h : id ∈ picks N k i ids) : id ∈ ids := by
  induction ids generalizing k with
  | nil => simp [picks] at h
  | cons x rest ih =>
    simp only [picks] at h
    by_cases hk : k % N = i
    · simp only [hk, if_true, List.mem_cons] at h
      rcases h with h | h
      · exact h ▸ List.mem_cons_self _ _
      · exact List.mem_cons_of_mem _ (ih _ h)
    · simp only [hk, if_false] at h
      exact List.mem_cons_of_mem _ (ih _ h)

/-- From a ready scheduler an iteration in which no registered callback raises succeeds:
worker `i` logs, in order, the calls for
the identifiers at the indices `i`, `i + N`, ... of `_systemIds`, each with the elapsed time
of this iteration, and the scheduler is ready again with the registry untouched. -/
theorem ExecuteIteration_of_Ready (raises : CallOutcome) (s : SystemScheduler)
    (delta : Timestamp) (h : Ready s)
    (hnr : ∀ id rec, mapFind s._systems id = some rec → raises rec.systemPtr delta = false) :
    ∃ s2, ExecuteIteration raises s delta = .ok (s2,
        (List.range s._threadWorkQueues.length).map (fun i =>
          (picks s._threadWorkQueues.length 0 i s._systemIds).map
            (invocationOf s._systems delta))) ∧
      Ready s2 ∧ s2._systemIds = s._systemIds ∧ s2._systems = s._systems ∧
      s2._threadWorkQueues.length = s._threadWorkQueues.length := by
  obtain ⟨hpos, hle, hempty, hidle, hshut, hcons⟩ := h
  have hcond : ¬ (s._threadWorkQueues.length = 0 ∨ s._shouldShutDown = true ∨
      allIdle s._threadAvailabilityMap s._threadWorkQueues.length = false) := by
    intro hc
    rcases hc with h0 | h1 | h2
    · omega
    · rw [hshut] at h1
      exact Bool.noConfusion h1
    · rw [hidle] at h2
      exact Bool.noConfusion h2
  have hlen : (distribute s._systemIds s._threadWorkQueues).length =
      s._threadWorkQueues.length := distributeFrom_length _ _ _ _
  have hqueue : ∀ i ∈ List.range s._threadWorkQueues.length,
      (distribute s._systemIds s._threadWorkQueues).getD i ⟨[]⟩ =
        ⟨picks s._threadWorkQueues.length 0 i s._systemIds⟩ := by
    intro i hi
    have hi2 : i < s._threadWorkQueues.length := List.mem_range.mp hi
    rw [List.getD_eq_getElem?_getD]
    have := distribute_replicate_getElem? s._threadWorkQueues.length s._systemIds i hi2
    rw [← hempty] at this
    rw [this]
    rfl
  refine ⟨(List.range s._threadWorkQueues.length).foldl workerDone
    { s with
      _currentDelta := delta
      _threadWorkQueues := distribute s._systemIds s._threadWorkQueues }, ?_, ?_, ?_, ?_, ?_⟩
  · unfold ExecuteIteration
    simp only []
    rw [if_neg hcond, runWorkers_eq _ _ _ (List.nodup_range _)]
    · simp only []
      congr 2
      apply List.map_congr_left
      intro i hi
      rw [hqueue i hi]
    · intro i hi id hid
      simp only [] at hid
      rw [hqueue i hi] at hid
      obtain ⟨rec, hrec⟩ :=
        exists_record_of_consistent s hcons id (mem_of_mem_picks _ _ _ _ _ hid)
      exact ⟨rec, hrec, hnr id rec hrec⟩
  · have hq := foldl_workerDone_range_queues
      { s with
        _currentDelta := delta
        _threadWorkQueues := distribute s._systemIds s._threadWorkQueues }
    simp only [hlen] at hq
    refine ⟨?_, ?_, ?_, ?_, ?_, ?_⟩
    · rw [hq]; simpa using hpos
    · rw [hq]; simpa using hle
    · rw [hq]; simp
    · rw [hq, allIdle_iff]
      intro j hj
      simp only [List.length_replicate] at hj
      apply foldl_workerDone_testBit _ _ j (by omega)
      exact (allIdle_iff _ _).mp hidle j hj
    · rw [foldl_workerDone_shouldShutDown]; exact hshut
    · intro id
      rw [foldl_workerDone_systemIds, foldl_workerDone_systems]
      exact hcons id
  · rw [foldl_workerDone_systemIds]
  · rw [foldl_workerDone_systems]
  · have hq := foldl_workerDone_range_queues
      { s with
        _currentDelta := delta
        _threadWorkQueues := distribute s._systemIds s._threadWorkQueues }
    simp only [hlen] at hq
    rw [hq]
    simp

/-! ## Facts about start-up -/

theorem effectiveThreadCount_pos (r : Nat) : 0 < effectiveThreadCount r := by
  unfold effectiveThreadCount DEFAULT_BLIND_THREAD_LIMIT BITMAP_WIDTH
  split <;> omega

theorem effectiveThreadCount_le (r : Nat) : effectiveThreadCount r ≤ BITMAP_WIDTH := by
  unfold effectiveThreadCount
  exact Nat.min_le_right _ _

theorem testBit_foldl_markIdle (l : List Nat) (m j : Nat) (hj : j ∈ l) :
    (l.foldl markIdle m).testBit j = true := by
  have keep : ∀ (l : List Nat) (m : Nat), m.testBit j = true →
      (l.foldl markIdle m).testBit j = true := by
    intro l
    induction l with
    | nil => intro m hm; exact hm
    | cons i rest ih =>
      intro m hm
      rw [List.foldl_cons]
      exact ih _ (testBit_markIdle_of_testBit m i j hm)
  induction l generalizing m with
  | nil => simp at hj
  | cons i rest ih =>
    rw [List.foldl_cons]
    rcases List.mem_cons.mp hj with h | h
    · subst h
      exact keep rest _ (testBit_markIdle_self m j)
    · exact ih _ h

theorem SpinThreads_of_not_spun (s : SystemScheduler) (h : s._threadCache = []) :
    SpinThreads s = { s with
      _threadWorkQueues := List.replicate (effectiveThreadCount s._maximumThreadCount) ⟨[]⟩
      _threadCache := List.range (effectiveThreadCount s._maximumThreadCount)
      _threadAvailabilityMap :=
        (List.range (effectiveThreadCount s._maximumThreadCount)).foldl markIdle
          s._threadAvailabilityMap } := by
  unfold SpinThreads
  rw [h]

/-- A constructed, not yet spun scheduler with a consistent registry is ready once spun. -/
theorem Ready_SpinThreads (s : SystemScheduler) (h : s._threadCache = [])
    (hshut : s._shouldShutDown = false) (hcons : RegistryConsistent s) :
    Ready (SpinThreads s) := by
  rw [SpinThreads_of_not_spun s h]
  refine ⟨?_, ?_, ?_, ?_, hshut, hcons⟩
  · simpa using effectiveThreadCount_pos _
  · simpa using effectiveThreadCount_le _
  · simp
  · rw [allIdle_iff]
    intro j hj
    simp only [List.length_replicate] at hj
    exact testBit_foldl_markIdle _ _ j (List.mem_range.mpr hj)

theorem registerAll_threadCache (calls : List (ComponentType × Callback))
    (w : Statics × SystemScheduler) :
    (registerAll calls w).2.2._threadCache = w.2._threadCache := by
  induction calls generalizing w with
  | nil => rfl
  | cons c rest ih =>
    obtain ⟨T, f⟩ := c
    rw [registerAll_cons]
    simp only []
    rw [ih]
    rfl

theorem registerAll_shouldShutDown (calls : List (ComponentType × Callback))
    (w : Statics × SystemScheduler) :
    (registerAll calls w).2.2._shouldShutDown = w.2._shouldShutDown := by
  induction calls generalizing w with
  | nil => rfl
  | cons c rest ih =>
    obtain ⟨T, f⟩ := c
    rw [registerAll_cons]
    simp only []
    rw [ih]
    rfl

/-- Registering on a freshly constructed scheduler and spinning gives a ready scheduler. -/
theorem Ready_spun_after_registrations (st : Statics) (r : Nat)
    (calls : List (ComponentType × Callback)) :
    Ready (SpinThreads (registerAll calls (st, SystemScheduler.created r)).2.2) := by
  apply Ready_SpinThreads
  · rw [registerAll_threadCache]; rfl
  · rw [registerAll_shouldShutDown]; rfl
  · exact RegistryConsistent_registerAll calls _ (RegistryConsistent_created r)

theorem SpinThreads_systems (s : SystemScheduler) : (SpinThreads s)._systems = s._systems := by
  unfold SpinThreads
  split <;> rfl

theorem SpinThreads_systemIds (s : SystemScheduler) :
    (SpinThreads s)._systemIds = s._systemIds := by
  unfold SpinThreads
  split <;> rfl

/-! ## Every queued identifier is queued once -/

theorem flatten_modify_perm (id : Atom) (l : List QueueLockPair) (n : Nat)
    (h : n < l.length) :
    ((List.modify (fun q => { q with systemIds := q.systemIds ++ [id] }) n l).map
      QueueLockPair.systemIds).flatten.Perm (id :: (l.map QueueLockPair.systemIds).flatten) := by
  induction l generalizing n with
  | nil => simp at h
  | cons q rest ih =>
    cases n with
    | zero =>
      simp only [List.modify, List.modifyHead, List.modifyTailIdx, List.map_cons,
        List.flatten_cons, List.append_assoc, List.singleton_append]
      exact List.perm_middle
    | succ n2 =>
      have hn : n2 < rest.length := by simpa using h
      have := ih n2 hn
      simp only [List.modify, List.modifyTailIdx, List.map_cons, List.flatten_cons]
      exact (List.Perm.append_left q.systemIds this).trans List.perm_middle

/-- Distribution only moves identifiers: the queues together hold what they held plus the
distributed identifiers. -/
theorem distributeFrom_perm (ids : List Atom) (k : Nat) (queues : List QueueLockPair)
    (h : 0 < queues.length) :
    ((distributeFrom queues.length k ids queues).map QueueLockPair.systemIds).flatten.Perm
      ((queues.map QueueLockPair.systemIds).flatten ++ ids) := by
  induction ids generalizing k queues with
  | nil => simp [distributeFrom]
  | cons id rest ih =>
    simp only [distributeFrom]
    have hlen : (List.modify (fun q : QueueLockPair =>
        { q with systemIds := q.systemIds ++ [id] }) (k % queues.length) queues).length =
        queues.length := List.length_modify _ _ _
    have hstep := ih (k + 1) (List.modify (fun q : QueueLockPair =>
        { q with systemIds := q.systemIds ++ [id] }) (k % queues.length) queues)
      (by rw [hlen]; exact h)
    rw [hlen] at hstep
    refine hstep.trans ?_
    have hmod := flatten_modify_perm id queues (k % queues.length) (Nat.mod_lt _ h)
    exact (List.Perm.append_right rest hmod).trans (by simpa using List.perm_middle.symm)

theorem distribute_replicate_eq (N : Nat) (ids : List Atom) :
    distribute ids (List.replicate N ⟨[]⟩) =
      (List.range N).map (fun i => ⟨picks N 0 i ids⟩) := by
  apply List.ext_getElem?
  intro j
  by_cases hj : j < N
  · rw [distribute_replicate_getElem? N ids j hj, List.getElem?_map,
      List.getElem?_range hj]
    rfl
  · have h1 : (distribute ids (List.replicate N ⟨[]⟩))[j]? = none := by
      apply List.getElem?_eq_none
      unfold distribute
      rw [distributeFrom_length]
      simp
      omega
    have h2 : ((List.range N).map (fun i => (⟨picks N 0 i ids⟩ : QueueLockPair)))[j]? = none := by
      apply List.getElem?_eq_none
      simp
      omega
    rw [h1, h2]

/-- The picks of the `N` queues together are a rearrangement of the identifier list. -/
theorem flatten_picks_perm (N : Nat) (ids : List Atom) (hN : 0 < N) :
    ((List.range N).map (fun i => picks N 0 i ids)).flatten.Perm ids := by
  have h := distributeFrom_perm ids 0 (List.replicate N ⟨[]⟩) (by simpa using hN)
  have hd : distributeFrom (List.replicate N (⟨[]⟩ : QueueLockPair)).length 0 ids
      (List.replicate N ⟨[]⟩) = distribute ids (List.replicate N ⟨[]⟩) := rfl
  rw [hd, distribute_replicate_eq] at h
  have hempty : ((List.replicate N (⟨[]⟩ : QueueLockPair)).map
      QueueLockPair.systemIds).flatten = [] := by
    simp
  rw [hempty, List.nil_append, List.map_map] at h
  exact h

/-- From a ready scheduler an iteration in which the callback of a registered system raises
does not return: it ends with `SystemCallbackFailure`. -/
theorem ExecuteIteration_of_raises (raises : CallOutcome) (s : SystemScheduler)
    (delta : Timestamp) (h : Ready s) (id : Atom) (rec : SystemRecord)
    (hrec : mapFind s._systems id = some rec) (hraise : raises rec.systemPtr delta = true) :
    ExecuteIteration raises s delta = .error .SystemCallbackFailure := by
  obtain ⟨hpos, -, hempty, hidle, hshut, hcons⟩ := h
  have hcond : ¬ (s._threadWorkQueues.length = 0 ∨ s._shouldShutDown = true ∨
      allIdle s._threadAvailabilityMap s._threadWorkQueues.length = false) := by
    intro hc
    rcases hc with h0 | h1 | h2
    · omega
    · rw [hshut] at h1
      exact Bool.noConfusion h1
    · rw [hidle] at h2
      exact Bool.noConfusion h2
  have hmem : id ∈ s._systemIds := by
    apply (hcons id).mpr
    rw [← mapFind_isSome_iff, hrec]
    rfl
  have hflat : id ∈ ((List.range s._threadWorkQueues.length).map
      (fun i => picks s._threadWorkQueues.length 0 i s._systemIds)).flatten :=
    (flatten_picks_perm _ s._systemIds hpos).mem_iff.mpr hmem
  obtain ⟨q, hq, hidq⟩ := List.mem_flatten.mp hflat
  obtain ⟨i, hi, hiq⟩ := List.mem_map.mp hq
  have hi2 : i < s._threadWorkQueues.length := List.mem_range.mp hi
  have hqueue : (distribute s._systemIds s._threadWorkQueues).getD i ⟨[]⟩ =
      ⟨picks s._threadWorkQueues.length 0 i s._systemIds⟩ := by
    rw [List.getD_eq_getElem?_getD]
    have := distribute_replicate_getElem? s._threadWorkQueues.length s._systemIds i hi2
    rw [← hempty] at this
    rw [this]
    rfl
  unfold ExecuteIteration
  simp only []
  rw [if_neg hcond]
  apply runWorkers_of_raises raises _ _ i id rec hi
  · simp only []
    rw [hqueue, hiq]
    exact hidq
  · exact hrec
  · exact hraise

/-! ## Iteration: the claims -/

theorem map_systemId_logs (N : Nat) (ids : List Atom) (systems : List (Atom × SystemRecord))
    (delta : Timestamp) :
    ((List.range N).map (fun i => (picks N 0 i ids).map (invocationOf systems delta))).map
      (fun log => log.map Invocation.systemId) =
      (distribute ids (List.replicate N ⟨[]⟩)).map QueueLockPair.systemIds := by
  rw [distribute_replicate_eq, List.map_map, List.map_map]
  apply List.map_congr_left
  intro i _
  simp only [Function.comp, List.map_map]
  exact List.map_id _

/-- C4: round-robin distribution over `N >= 1` empty work queues. The identifier at index
`k` is found in queue `k mod N` (at position `k / N`); queue `i` holds exactly the
identifiers at the indices `i`, `i + N`, `i + 2 N`, ... in registration order; with two
queues and `S1..S4` the queues are `[S1, S3]` and `[S2, S4]`; and two successive iterations of
a spun scheduler hand every worker the same identifiers in the same order, namely its queue
of the distribution: when no callback raises at all, and more generally for every behaviour
of the callbacks in which no registered callback raises in these two iterations. -/
theorem round_robin_distribution (N : Nat) (ids : List Atom) (i k : Nat) (hi : i < N)
    (hk : k < ids.length) (S1 S2 S3 S4 : Atom) (st : Statics) (r : Nat)
    (calls : List (ComponentType × Callback)) (d1 d2 : Timestamp) (raises : CallOutcome) :
    (distribute ids (List.replicate N ⟨[]⟩)).length = N ∧
    (∃ q, (distribute ids (List.replicate N ⟨[]⟩))[k % N]? = some q ∧
      q.systemIds[k / N]? = some ids[k]) ∧
    (∃ q, (distribute ids (List.replicate N ⟨[]⟩))[i]? = some q ∧
      ∀ j, q.systemIds[j]? = ids[i + j * N]?) ∧
    distribute [S1, S2, S3, S4] (List.replicate 2 ⟨[]⟩) = [⟨[S1, S3]⟩, ⟨[S2, S4]⟩] ∧
    (∃ s1 logs1 s2 logs2,
      ExecuteIteration neverRaises (SpinThreads
        (registerAll calls (st, SystemScheduler.created r)).2.2) d1 = .ok (s1, logs1) ∧
      ExecuteIteration neverRaises s1 d2 = .ok (s2, logs2) ∧
      logs1.map (fun log => log.map Invocation.systemId) =
        (distribute (registerAll calls (st, SystemScheduler.created r)).2.2._systemIds
          (List.replicate (SpinThreads (registerAll calls
            (st, SystemScheduler.created r)).2.2)._threadWorkQueues.length ⟨[]⟩)).map
          QueueLockPair.systemIds ∧
      logs2.map (fun log => log.map Invocation.systemId) =
        logs1.map (fun log => log.map Invocation.systemId)) ∧
    ((∀ id rec,
        mapFind (registerAll calls (st, SystemScheduler.created r)).2.2._systems id
          = some rec →
        raises rec.systemPtr d1 = false ∧ raises rec.systemPtr d2 = false) →
      ∃ s1 logs1 s2 logs2,
        ExecuteIteration raises (SpinThreads
          (registerAll calls (st, SystemScheduler.created r)).2.2) d1 = .ok (s1, logs1) ∧
        ExecuteIteration raises s1 d2 = .ok (s2, logs2) ∧
        logs1.map (fun log => log.map Invocation.systemId) =
          (distribute (registerAll calls (st, SystemScheduler.created r)).2.2._systemIds
            (List.replicate (SpinThreads (registerAll calls
              (st, SystemScheduler.created r)).2.2)._threadWorkQueues.length ⟨[]⟩)).map
            QueueLockPair.systemIds ∧
        logs2.map (fun log => log.map Invocation.systemId) =
          logs1.map (fun log => log.map Invocation.systemId)) := by
  have hN : 0 < N := by omega
  have htwo : ∀ out : CallOutcome,
      (∀ id rec,
        mapFind (registerAll calls (st, SystemScheduler.created r)).2.2._systems id
          = some rec →
        out rec.systemPtr d1 = false ∧ out rec.systemPtr d2 = false) →
      ∃ s1 logs1 s2 logs2,
        ExecuteIteration out (SpinThreads
          (registerAll calls (st, SystemScheduler.created r)).2.2) d1 = .ok (s1, logs1) ∧
        ExecuteIteration out s1 d2 = .ok (s2, logs2) ∧
        logs1.map (fun log => log.map Invocation.systemId) =
          (distribute (registerAll calls (st, SystemScheduler.created r)).2.2._systemIds
            (List.replicate (SpinThreads (registerAll calls
              (st, SystemScheduler.created r)).2.2)._threadWorkQueues.length ⟨[]⟩)).map
            QueueLockPair.systemIds ∧
        logs2.map (fun log => log.map Invocation.systemId) =
          logs1.map (fun log => log.map Invocation.systemId) := by
    intro out hout
    have hready := Ready_spun_after_registrations st r calls
    obtain ⟨s1, hexec1, hready1, hids1, hsys1, hlen1⟩ :=
      ExecuteIteration_of_Ready out _ d1 hready
        (by rw [SpinThreads_systems]; exact fun id rec h => (hout id rec h).1)
    obtain ⟨s2, hexec2, -, -, -, -⟩ := ExecuteIteration_of_Ready out s1 d2 hready1
      (by rw [hsys1, SpinThreads_systems]; exact fun id rec h => (hout id rec h).2)
    refine ⟨s1, _, s2, _, hexec1, hexec2, ?_, ?_⟩
    · rw [map_systemId_logs, SpinThreads_systemIds]
    · rw [map_systemId_logs, map_systemId_logs, hids1, hlen1]
  refine ⟨?_, ?_, ?_, rfl, ?_, htwo raises⟩
  · unfold distribute
    rw [distributeFrom_length]
    simp
  · refine ⟨⟨picks N 0 (k % N) ids⟩,
      distribute_replicate_getElem? N ids (k % N) (Nat.mod_lt _ hN), ?_⟩
    rw [picks_zero_getElem? N (k % N) ids (k / N) (Nat.mod_lt _ hN)]
    have : k % N + k / N * N = k := by
      rw [Nat.mul_comm]
      exact Nat.mod_add_div k N
    rw [this]
    exact List.getElem?_eq_getElem hk
  · exact ⟨⟨picks N 0 i ids⟩, distribute_replicate_getElem? N ids i hi,
      fun j => picks_zero_getElem? N i ids j hi⟩
  · exact htwo neverRaises (fun _ _ _ => ⟨rfl, rfl⟩)

/-- Witness for C4: two queues, identifiers 5, 6, 7, 8; queue 1 and index 2. -/
theorem round_robin_distribution_witness :
    (1 < 2 ∧ 2 < ([5, 6, 7, 8] : List Atom).length) ∧
    (∃ q, (distribute [5, 6, 7, 8] (List.replicate 2 ⟨[]⟩))[1]? = some q ∧
      ∀ j, q.systemIds[j]? = ([5, 6, 7, 8] : List Atom)[1 + j * 2]?) :=
  ⟨⟨by decide, by decide⟩,
    (round_robin_distribution 2 [5, 6, 7, 8] 1 2 (by decide) (by decide) 1 2 3 4
      Statics.initial 2 [(0, 10), (1, 11), (2, 12), (3, 13)] 16 17 neverRaises).2.2.1⟩

/-! ## Start-up: the claims -/

/-- C6: starting a scheduler with a requested thread count above 64 fails with
`ConfigurationError` and starts no worker thread; with a count of at most 64 it succeeds,
so no `ConfigurationError` is raised. -/
theorem start_fails_above_bitmap_width (r : Nat) :
    (64 < r → startScheduler r = .error .ConfigurationError ∧
      workerThreadsStarted (startScheduler r) = 0) ∧
    (r ≤ 64 → startScheduler r = .ok (SpinThreads (SystemScheduler.created r)) ∧
      workerThreadsStarted (startScheduler r) = if r > 0 then r else 8) := by
  constructor
  · intro h
    have hc : SystemScheduler.construct r = .error .ConfigurationError := by
      unfold SystemScheduler.construct BITMAP_WIDTH
      rw [if_pos h]
    simp [startScheduler, hc, workerThreadsStarted]
  · intro h
    have hc : SystemScheduler.construct r = .ok (SystemScheduler.created r) := by
      unfold SystemScheduler.construct BITMAP_WIDTH
      rw [if_neg (by omega)]
    have hs : startScheduler r = .ok (SpinThreads (SystemScheduler.created r)) := by
      simp [startScheduler, hc]
    refine ⟨hs, ?_⟩
    rw [hs]
    simp only [workerThreadsStarted]
    rw [SpinThreads_of_not_spun _ rfl]
    simp only [List.length_range]
    show effectiveThreadCount r = _
    unfold effectiveThreadCount DEFAULT_BLIND_THREAD_LIMIT BITMAP_WIDTH
    split <;> omega

/-- Witness for C6: the requests 65 and 64. -/
theorem start_fails_above_bitmap_width_witness :
    (64 < 65 ∧ 64 ≤ 64) ∧
    (startScheduler 65 = .error .ConfigurationError ∧
      workerThreadsStarted (startScheduler 65) = 0) ∧
    workerThreadsStarted (startScheduler 64) = 64 :=
  ⟨⟨by decide, by decide⟩, (start_fails_above_bitmap_width 65).1 (by decide),
    ((start_fails_above_bitmap_width 64).2 (by decide)).2⟩

end NovelRT.Ecs
